import Mathlib

/-!
Verification of the Smart Restaurant Monitoring System's detection-to-zone
assignment and temporal state-tracking engine.

The embedding below translates, line by line, the two source components:
  * `src/src/table_state_tracker.py` — class `TableStateTracker`
    (`__init__`, `update_table_state`, `check_alerts`, `get_table_state`,
    `get_all_states`);
  * `src/main_application.py` — `RestaurantMonitor._map_detection_to_table`
    (the per-zone IoU matching loop).

Modelling conventions:
  * Python floats carrying `time.time()` values and IoU ratios become `ℚ`.
  * The Python dict `self.table_states` becomes an association list
    `List (String × ZoneState)`; dict iteration order is insertion order,
    which the list preserves.  Keys are unique in the source because the
    table ids come from `list(config["tables"].keys())` (keys of a dict).
  * `time.time()`/`datetime.now()` results are passed in as explicit
    arguments (`now : ℚ`, `tstr : String`); in the running program these
    are positive wall-clock readings.
  * A Python `raise` becomes `Except.error`: `ValueError` for an unknown
    table id, and `TypeError` for the `current_time - None` subtraction
    that `update_table_state` would perform if a table were
    `unoccupied_dirty` with `last_dirty_time = None` (unreachable in
    practice, see the invariant theorems).
-/

/-- One table's state: the Python dict
`{"state", "last_state_change", "last_dirty_time", "dirty_duration"}`
created in `TableStateTracker.__init__` (lines 23–28).  These four keys are
the complete per-table state; in particular there is no `alerted` field. -/
structure ZoneState where
  state : String
  last_state_change : ℚ
  last_dirty_time : Option ℚ
  dirty_duration : ℚ
deriving DecidableEq, Repr

/-- An alert dict as built in `check_alerts` (lines 90–95). -/
structure Alert where
  table_id : String
  duration : ℤ
  timestamp : String
  message : String
deriving DecidableEq, Repr

/-- Python `int()` applied to a float: truncation toward zero. -/
def pyInt (q : ℚ) : ℤ :=
  if 0 ≤ q then ⌊q⌋ else ⌈q⌉

/-- `TableStateTracker`: threshold, per-table states (dict as assoc list,
insertion order preserved), and the `self.alerts` list. -/
structure TableStateTracker where
  dirty_threshold : ℚ
  table_states : List (String × ZoneState)
  alerts : List Alert
deriving DecidableEq, Repr

/-- The fresh per-table state built in `__init__` (lines 23–28); `t0` is the
`time.time()` reading at construction. -/
def initZoneState (t0 : ℚ) : ZoneState :=
  { state := "unoccupied_clean"
    last_state_change := t0
    last_dirty_time := none
    dirty_duration := 0 }

/-- `TableStateTracker.__init__(table_ids, dirty_threshold_seconds)`
(lines 10–30), with the construction-time clock reading `t0` explicit.
(The source default for the threshold is 300.) -/
def mkTracker (table_ids : List String) (dirty_threshold_seconds : ℚ) (t0 : ℚ) :
    TableStateTracker :=
  { dirty_threshold := dirty_threshold_seconds
    table_states := table_ids.map (fun tid => (tid, initZoneState t0))
    alerts := [] }

/-- Dict read `self.table_states[table_id]` / `table_id in self.table_states`
on the assoc-list model. -/
def findState (l : List (String × ZoneState)) (table_id : String) : Option ZoneState :=
  match l with
  | [] => none
  | e :: rest => if e.1 = table_id then some e.2 else findState rest table_id

/-- Dict write `self.table_states[table_id] = st` on the assoc-list model
(replaces the entry holding that key). -/
def setState (l : List (String × ZoneState)) (table_id : String) (st : ZoneState) :
    List (String × ZoneState) :=
  l.map (fun e => if e.1 = table_id then (e.1, st) else e)

/-- Errors `update_table_state`/`get_table_state` can raise:
`ValueError` for an unknown table id (lines 43–44, 110–111), and the
`TypeError` Python would raise on `current_time - None` in line 52–54. -/
inductive TrackerErr where
  | valueErr : TrackerErr
  | typeErr : TrackerErr
deriving DecidableEq, Repr

/-- `TableStateTracker.update_table_state(table_id, new_state)`
(lines 32–71), with the internal `time.time()` reading `now` explicit.
Returns the updated tracker together with the source's boolean result. -/
def update_table_state (tr : TableStateTracker) (table_id new_state : String)
    (now : ℚ) : Except TrackerErr (TableStateTracker × Bool) :=
  match findState tr.table_states table_id with
  | none => .error .valueErr
  | some st =>
    if st.state = new_state then
      -- state unchanged: update dirty duration if applicable (lines 50–55)
      if new_state = "unoccupied_dirty" then
        match st.last_dirty_time with
        | none => .error .typeErr
        | some t0 =>
          let st3 : ZoneState := { st with dirty_duration := now - t0 }
          .ok ({ tr with table_states := setState tr.table_states table_id st3 }, false)
      else
        .ok (tr, false)
    else
      -- state transition (lines 58–69)
      let st1 : ZoneState := { st with state := new_state, last_state_change := now }
      let st2 : ZoneState :=
        if new_state = "unoccupied_dirty" then
          { st1 with last_dirty_time := some now, dirty_duration := 0 }
        else if st.state = "unoccupied_dirty" then
          { st1 with dirty_duration := 0, last_dirty_time := none }
        else st1
      .ok ({ tr with table_states := setState tr.table_states table_id st2 }, true)

/-- The alert dict built in `check_alerts` lines 89–95 (`tstr` stands for
the `datetime.now().strftime(...)` string). -/
def mkAlert (table_id : String) (d : ℚ) (tstr : String) : Alert :=
  { table_id := table_id
    duration := pyInt d
    timestamp := tstr
    message := "Table " ++ table_id ++ " has been dirty for " ++ toString (pyInt d) ++ "s" }

/-- The body of the `for table_id, state_info in self.table_states.items()`
loop of `check_alerts` (lines 83–96), as a single left-to-right pass:
returns the updated states and the alerts appended by the loop, in
iteration order.  Note the Python guard `if state_info["state"] ==
"unoccupied_dirty" and state_info["last_dirty_time"]:` tests the
*truthiness* of `last_dirty_time`, i.e. it also skips the float `0.0`. -/
def alertScan (thr now : ℚ) (tstr : String) :
    List (String × ZoneState) → List (String × ZoneState) × List Alert
  | [] => ([], [])
  | (tid, st) :: rest =>
    let tail := alertScan thr now tstr rest
    match st.last_dirty_time with
    | none => ((tid, st) :: tail.1, tail.2)
    | some t0 =>
      if st.state = "unoccupied_dirty" ∧ t0 ≠ 0 then
        let d := now - t0
        ((tid, { st with dirty_duration := d }) :: tail.1,
          if thr ≤ d then mkAlert tid d tstr :: tail.2 else tail.2)
      else ((tid, st) :: tail.1, tail.2)

/-- `TableStateTracker.check_alerts()` (lines 73–98), with the two clock
readings (`time.time()` and the formatted `datetime.now()` string)
explicit.  Clears `self.alerts`, walks all tables updating
`dirty_duration` and collecting alerts, stores and returns the list. -/
def check_alerts (tr : TableStateTracker) (now : ℚ) (tstr : String) :
    TableStateTracker × List Alert :=
  let r := alertScan tr.dirty_threshold now tstr tr.table_states
  ({ tr with table_states := r.1, alerts := r.2 }, r.2)

/-- `TableStateTracker.get_table_state(table_id)` (lines 100–113). -/
def get_table_state (tr : TableStateTracker) (table_id : String) :
    Except TrackerErr ZoneState :=
  match findState tr.table_states table_id with
  | none => .error .valueErr
  | some st => .ok st

/-- `TableStateTracker.get_all_states()` (lines 115–122). -/
def get_all_states (tr : TableStateTracker) : List (String × ZoneState) :=
  tr.table_states

/-! ## Zone assigner (`RestaurantMonitor._map_detection_to_table`) -/

/-- An axis-aligned box `[x1, y1, x2, y2]`; detection coordinates are ints
in the source (`map(int, box.xyxy[0])`, line 127), and table boxes come
from the JSON layout config. -/
structure Box where
  x1 : ℤ
  y1 : ℤ
  x2 : ℤ
  y2 : ℤ
deriving DecidableEq, Repr

/-- `(tx2 - tx1) * (ty2 - ty1)` / `(dx2 - dx1) * (dy2 - dy1)`
(lines 86–87). -/
def boxArea (b : Box) : ℤ :=
  (b.x2 - b.x1) * (b.y2 - b.y1)

/-- `x_right - x_left` with `x_left = max(tx1, dx1)`, `x_right = min(tx2, dx2)`
(lines 77, 79). -/
def interW (tb db : Box) : ℤ :=
  min tb.x2 db.x2 - max tb.x1 db.x1

/-- `y_bottom - y_top` with `y_top = max(ty1, dy1)`, `y_bottom = min(ty2, dy2)`
(lines 78, 80). -/
def interH (tb db : Box) : ℤ :=
  min tb.y2 db.y2 - max tb.y1 db.y1

/-- `intersection = (x_right - x_left) * (y_bottom - y_top)` (line 85). -/
def interArea (tb db : Box) : ℤ :=
  interW tb db * interH tb db

/-- `union = table_area + detection_area - intersection` (line 88). -/
def unionArea (tb db : Box) : ℤ :=
  boxArea tb + boxArea db - interArea tb db

/-- Negation of the `if x_right < x_left or y_bottom < y_top: continue`
test (line 82): the two boxes pass the overlap check. -/
def overlapsOk (tb db : Box) : Prop :=
  ¬(min tb.x2 db.x2 < max tb.x1 db.x1 ∨ min tb.y2 db.y2 < max tb.y1 db.y1)

instance (tb db : Box) : Decidable (overlapsOk tb db) := by
  unfold overlapsOk; infer_instance

/-- The IoU the loop body computes for one (table, detection) pair, with
`0` standing for the `continue` at line 82–83 (no overlap contributes
nothing regardless of class). -/
def iouQ (tb db : Box) : ℚ :=
  if overlapsOk tb db then (interArea tb db : ℚ) / (unionArea tb db : ℚ) else 0

/-- One iteration of the `for det_box, det_class in detection_boxes` loop
(lines 73–93): `acc` is the running `(best_state, best_iou)` pair, `cn` is
`self.class_names`.  A detection replaces the best only on `iou > best_iou`
(line 91, strict). -/
def iouStep (cn : ℕ → String) (tb : Box) (acc : String × ℚ) (det : Box × ℕ) :
    String × ℚ :=
  if overlapsOk tb det.1 then
    let iou : ℚ := (interArea tb det.1 : ℚ) / (unionArea tb det.1 : ℚ)
    if acc.2 < iou then (cn det.2, iou) else acc
  else acc

/-- The per-table result of `_map_detection_to_table`: the loop starting
from `best_state = "unoccupied_clean"`, `best_iou = 0.3` (lines 69–70). -/
def bestStateForTable (cn : ℕ → String) (tb : Box) (dets : List (Box × ℕ)) :
    String × ℚ :=
  dets.foldl (iouStep cn tb) ("unoccupied_clean", 3/10)

/-- `RestaurantMonitor._map_detection_to_table(detection_boxes)`
(lines 51–97): for each configured table, run the detection loop and
record the winning state.  Table boxes are used exactly as configured —
`process_frame` computes `scale_x`/`scale_y` (lines 116–117) but applies
them only when drawing (lines 145–152), never before this matching. -/
def mapDetectionToTable (cn : ℕ → String) (tables : List (String × Box))
    (dets : List (Box × ℕ)) : List (String × String) :=
  tables.map (fun t => (t.1, (bestStateForTable cn t.2 dets).1))

/-! ## Derived definitions used by the verification -/

/-- The effect of one `check_alerts` loop iteration on one table's entry
(lines 84–86): a `unoccupied_dirty` table with truthy `last_dirty_time`
gets `dirty_duration = now - last_dirty_time`; every other table is left
untouched. -/
def scanEntry (now : ℚ) (e : String × ZoneState) : String × ZoneState :=
  match e.2.last_dirty_time with
  | none => e
  | some t0 =>
    if e.2.state = "unoccupied_dirty" ∧ t0 ≠ 0 then
      (e.1, { e.2 with dirty_duration := now - t0 })
    else e

/-- The alert (if any) one `check_alerts` loop iteration appends for one
table's entry (lines 88–96). -/
def scanAlert (thr now : ℚ) (tstr : String) (e : String × ZoneState) : Option Alert :=
  match e.2.last_dirty_time with
  | none => none
  | some t0 =>
    if (e.2.state = "unoccupied_dirty" ∧ t0 ≠ 0) ∧ thr ≤ now - t0 then
      some (mkAlert e.1 (now - t0) tstr)
    else none

/-- The state-component effect of one `check_alerts` iteration, as a
function of the zone state alone (the table id plays no role in it). -/
def scanDur (now : ℚ) (st : ZoneState) : ZoneState :=
  match st.last_dirty_time with
  | none => st
  | some t0 =>
    if st.state = "unoccupied_dirty" ∧ t0 ≠ 0 then
      { st with dirty_duration := now - t0 }
    else st

/-- Number of alerts in a list that carry the given table id. -/
def countFor (tid : String) (alerts : List Alert) : ℕ :=
  (alerts.filter (fun a => a.table_id == tid)).length

/-- Run a sequence of `update_table_state` calls for one table and label,
recording the table's stored `dirty_duration` after each call.  `none`
models an uncaught Python exception during the sequence. -/
def runUpdates (tid lbl : String) :
    TableStateTracker → List ℚ → Option (List ℚ × TableStateTracker)
  | tr, [] => some ([], tr)
  | tr, t :: ts =>
    match update_table_state tr tid lbl t with
    | .error _ => none
    | .ok (tr2, _) =>
      match findState tr2.table_states tid with
      | none => none
      | some st =>
        match runUpdates tid lbl tr2 ts with
        | none => none
        | some (ds, trf) => some (st.dirty_duration :: ds, trf)

/-- Run a sequence of `check_alerts` calls (each with its clock reading and
formatted time string), collecting each call's returned alert list. -/
def runAlertCalls : TableStateTracker → List (ℚ × String) → List (List Alert)
  | _, [] => []
  | tr, c :: cs =>
    (check_alerts tr c.1 c.2).2 :: runAlertCalls (check_alerts tr c.1 c.2).1 cs

/-- Per-table invariant: `last_dirty_time` is non-null iff the table is
`unoccupied_dirty`, and any stored dirty-entry time is positive (it is a
`time.time()` reading, and `time.time()` returns positive values). -/
def ZoneInv (st : ZoneState) : Prop :=
  (st.state = "unoccupied_dirty" ↔ st.last_dirty_time ≠ none) ∧
  (∀ t0 : ℚ, st.last_dirty_time = some t0 → 0 < t0)

/-- Tracker-wide invariant: table ids are unique (they are the keys of the
`config["tables"]` dict) and every table's state satisfies `ZoneInv`. -/
def TrackerInv (tr : TableStateTracker) : Prop :=
  (tr.table_states.map Prod.fst).Nodup ∧ ∀ e ∈ tr.table_states, ZoneInv e.2

/-- Tracker states reachable from construction by the tracker's mutating
operations.  All clock readings are positive (`time.time()` wall-clock)
and the constructor's id list has no duplicates (it is
`list(config["tables"].keys())`, the keys of a dict).  `get_table_state`
and `get_all_states` do not modify the tracker, so they do not enlarge
the reachable set. -/
inductive Reachable : TableStateTracker → Prop where
  | mk (table_ids : List String) (thr t0 : ℚ) (h0 : 0 < t0) (hn : table_ids.Nodup) :
      Reachable (mkTracker table_ids thr t0)
  | upd (tr : TableStateTracker) (tid lbl : String) (now : ℚ) (tr' : TableStateTracker)
      (b : Bool) (hr : Reachable tr) (h0 : 0 < now)
      (h : update_table_state tr tid lbl now = .ok (tr', b)) : Reachable tr'
  | alerts (tr : TableStateTracker) (now : ℚ) (tstr : String) (hr : Reachable tr)
      (h0 : 0 < now) : Reachable (check_alerts tr now tstr).1

/-- Concrete one-table tracker (threshold 300, constructed at t = 1) used
by the concrete runs below. -/
def demoTracker : TableStateTracker := mkTracker ["T1"] 300 1

/-- The zone state of a table that entered `unoccupied_dirty` at t = 10. -/
def demoDirtyState : ZoneState :=
  { state := "unoccupied_dirty", last_state_change := 10, last_dirty_time := some 10, dirty_duration := 0 }

/-- `demoTracker` after `update_table_state "T1" "unoccupied_dirty"` at t = 10. -/
def demoDirtyTracker : TableStateTracker :=
  { dirty_threshold := 300, table_states := [("T1", demoDirtyState)], alerts := [] }

/-- The zone state of a table that entered `unoccupied_dirty` at t = 12. -/
def demoDirtyState12 : ZoneState :=
  { state := "unoccupied_dirty", last_state_change := 12, last_dirty_time := some 12, dirty_duration := 0 }

/-- `demoTracker` after `update_table_state "T1" "unoccupied_dirty"` at t = 12. -/
def demoDirtyTracker12 : TableStateTracker :=
  { dirty_threshold := 300, table_states := [("T1", demoDirtyState12)], alerts := [] }

/-- A concrete `self.class_names` table (class id 2 maps to the dirty
label) used in the concrete assignment runs below. -/
def demoClassNames : ℕ → String
  | 0 => "occupied"
  | 1 => "unoccupied_clean"
  | _ => "unoccupied_dirty"

/-! ## Helper lemmas: the assoc-list dict model -/

theorem setState_map_fst (l : List (String × ZoneState)) (tid : String) (st : ZoneState) :
    (setState l tid st).map Prod.fst = l.map Prod.fst := by
  induction l with
  | nil => rfl
  | cons e rest ih =>
    by_cases h : e.1 = tid <;> simp [setState, h] at ih ⊢ <;> exact ih

theorem mem_setState (l : List (String × ZoneState)) (tid : String) (st : ZoneState)
    (e : String × ZoneState) (h : e ∈ setState l tid st) : e ∈ l ∨ e.2 = st := by
  induction l with
  | nil => simp [setState] at h
  | cons a rest ih =>
    simp only [setState, List.map_cons, List.mem_cons] at h
    rcases h with h | h
    · by_cases ha : a.1 = tid
      · simp [ha] at h; right; rw [h]
      · simp [ha] at h; left; simp [h]
    · rcases ih h with h2 | h2
      · left; exact List.mem_cons_of_mem _ h2
      · right; exact h2

theorem findState_mem (l : List (String × ZoneState)) (tid : String) (st : ZoneState)
    (h : findState l tid = some st) : (tid, st) ∈ l := by
  induction l with
  | nil => simp [findState] at h
  | cons a rest ih =>
    obtain ⟨k, v⟩ := a
    by_cases hk : k = tid
    · subst hk
      simp [findState] at h
      subst h
      exact List.mem_cons_self _ _
    · simp [findState, hk] at h
      exact List.mem_cons_of_mem _ (ih h)

theorem findState_eq_none (l : List (String × ZoneState)) (tid : String) :
    findState l tid = none ↔ tid ∉ l.map Prod.fst := by
  induction l with
  | nil => simp [findState]
  | cons a rest ih =>
    obtain ⟨k, v⟩ := a
    by_cases hk : k = tid
    · subst hk
      simp [findState]
    · simp [findState, hk, ih, Ne.symm hk]

theorem findState_setState_self (l : List (String × ZoneState)) (tid : String)
    (st : ZoneState) :
    findState (setState l tid st) tid = (findState l tid).map (fun _ => st) := by
  induction l with
  | nil => rfl
  | cons a rest ih =>
    obtain ⟨k, v⟩ := a
    simp only [setState, List.map_cons] at ih ⊢
    by_cases hk : k = tid
    · simp [findState, hk]
    · simp [findState, hk, ih]

theorem findState_setState_other (l : List (String × ZoneState)) (tid k : String)
    (st : ZoneState) (hk : k ≠ tid) :
    findState (setState l tid st) k = findState l k := by
  induction l with
  | nil => rfl
  | cons a rest ih =>
    obtain ⟨ak, av⟩ := a
    simp only [setState, List.map_cons] at ih ⊢
    by_cases ha : ak = tid
    · have hak : ¬ak = k := fun h => hk (by rw [← h]; exact ha)
      simp [findState, ha, hak, ih, Ne.symm hk]
    · by_cases hak : ak = k
      · simp [findState, ha, hak, hk]
      · simp [findState, ha, hak, ih]

/-! ## Branch equations for `update_table_state` -/

theorem update_not_found (tr : TableStateTracker) (tid lbl : String) (now : ℚ)
    (h : findState tr.table_states tid = none) :
    update_table_state tr tid lbl now = .error .valueErr := by
  unfold update_table_state; rw [h]

theorem update_same_not_dirty (tr : TableStateTracker) (tid lbl : String) (now : ℚ)
    (st : ZoneState) (hf : findState tr.table_states tid = some st)
    (hs : st.state = lbl) (hd : lbl ≠ "unoccupied_dirty") :
    update_table_state tr tid lbl now = .ok (tr, false) := by
  unfold update_table_state; rw [hf]; simp [hs, hd]

theorem update_same_dirty (tr : TableStateTracker) (tid : String) (now : ℚ)
    (st : ZoneState) (t0 : ℚ) (hf : findState tr.table_states tid = some st)
    (hs : st.state = "unoccupied_dirty") (hl : st.last_dirty_time = some t0) :
    update_table_state tr tid "unoccupied_dirty" now =
      .ok ({ tr with table_states := setState tr.table_states tid ({ st with dirty_duration := now - t0 }) }, false) := by
  unfold update_table_state; rw [hf]; simp [hs, hl]

theorem update_same_dirty_none (tr : TableStateTracker) (tid : String) (now : ℚ)
    (st : ZoneState) (hf : findState tr.table_states tid = some st)
    (hs : st.state = "unoccupied_dirty") (hl : st.last_dirty_time = none) :
    update_table_state tr tid "unoccupied_dirty" now = .error .typeErr := by
  unfold update_table_state; rw [hf]; simp [hs, hl]

theorem update_enter_dirty (tr : TableStateTracker) (tid : String) (now : ℚ)
    (st : ZoneState) (hf : findState tr.table_states tid = some st)
    (hs : st.state ≠ "unoccupied_dirty") :
    update_table_state tr tid "unoccupied_dirty" now =
      .ok ({ tr with table_states := setState tr.table_states tid ({ st with state := "unoccupied_dirty", last_state_change := now, last_dirty_time := some now, dirty_duration := 0 }) }, true) := by
  unfold update_table_state; rw [hf]; simp [hs]

theorem update_leave_dirty (tr : TableStateTracker) (tid lbl : String) (now : ℚ)
    (st : ZoneState) (hf : findState tr.table_states tid = some st)
    (hs : st.state = "unoccupied_dirty") (hd : lbl ≠ "unoccupied_dirty") :
    update_table_state tr tid lbl now =
      .ok ({ tr with table_states := setState tr.table_states tid ({ st with state := lbl, last_state_change := now, last_dirty_time := none, dirty_duration := 0 }) }, true) := by
  unfold update_table_state; rw [hf]
  have hne : st.state ≠ lbl := by rw [hs]; exact fun hh => hd hh.symm
  simp [hne, hd, hs, Ne.symm hd]

theorem update_switch_other (tr : TableStateTracker) (tid lbl : String) (now : ℚ)
    (st : ZoneState) (hf : findState tr.table_states tid = some st)
    (hs1 : st.state ≠ lbl) (hs2 : st.state ≠ "unoccupied_dirty")
    (hd : lbl ≠ "unoccupied_dirty") :
    update_table_state tr tid lbl now =
      .ok ({ tr with table_states := setState tr.table_states tid ({ st with state := lbl, last_state_change := now }) }, true) := by
  unfold update_table_state; rw [hf]; simp [hs1, hs2, hd]

/-! ## Helper lemmas: a per-entry view of the `check_alerts` loop -/

theorem alertScan_eq (thr now : ℚ) (tstr : String) (l : List (String × ZoneState)) :
    alertScan thr now tstr l = (l.map (scanEntry now), l.filterMap (scanAlert thr now tstr)) := by
  induction l with
  | nil => rfl
  | cons e rest ih =>
    obtain ⟨tid, st⟩ := e
    simp only [alertScan, ih, scanEntry, scanAlert, List.map_cons, List.filterMap_cons]
    cases hl : st.last_dirty_time with
    | none => simp
    | some t0 =>
      by_cases hq : st.state = "unoccupied_dirty" ∧ t0 ≠ 0
      · by_cases hthr : thr ≤ now - t0 <;> simp [hq, hthr]
      · simp [hq]

theorem scanEntry_fst (now : ℚ) (e : String × ZoneState) : (scanEntry now e).1 = e.1 := by
  unfold scanEntry
  cases e.2.last_dirty_time with
  | none => rfl
  | some t0 =>
    by_cases hq : e.2.state = "unoccupied_dirty" ∧ t0 ≠ 0 <;> simp [hq]

/-! ## The tracker invariant and reachable states -/

theorem trackerInv_mkTracker (table_ids : List String) (thr t0 : ℚ)
    (hn : table_ids.Nodup) : TrackerInv (mkTracker table_ids thr t0) := by
  constructor
  · simp only [mkTracker, List.map_map]
    have hc : (Prod.fst ∘ fun tid => (tid, initZoneState t0)) = (id : String → String) := rfl
    rw [hc, List.map_id]
    exact hn
  · intro e he
    simp only [mkTracker, List.mem_map] at he
    obtain ⟨tid, _, rfl⟩ := he
    exact ⟨by simp [initZoneState], by simp [initZoneState]⟩

theorem trackerInv_update (tr : TableStateTracker) (hi : TrackerInv tr)
    (tid lbl : String) (now : ℚ) (h0 : 0 < now) (tr' : TableStateTracker) (b : Bool)
    (h : update_table_state tr tid lbl now = .ok (tr', b)) : TrackerInv tr' := by
  obtain ⟨hkeys, hent⟩ := hi
  have keyNew : ∀ st2 : ZoneState,
      ((setState tr.table_states tid st2).map Prod.fst).Nodup := by
    intro st2; rw [setState_map_fst]; exact hkeys
  have entNew : ∀ st2 : ZoneState, ZoneInv st2 →
      ∀ e ∈ setState tr.table_states tid st2, ZoneInv e.2 := by
    intro st2 h2 e he
    rcases mem_setState _ _ _ _ he with hm | hm
    · exact hent _ hm
    · rw [hm]; exact h2
  cases hfind : findState tr.table_states tid with
  | none =>
    rw [update_not_found tr tid lbl now hfind] at h
    exact absurd h (by simp)
  | some st =>
    have hstinv : ZoneInv st := hent _ (findState_mem _ _ _ hfind)
    by_cases hsame : st.state = lbl
    · by_cases hd : lbl = "unoccupied_dirty"
      · subst hd
        cases hl : st.last_dirty_time with
        | none =>
          rw [update_same_dirty_none tr tid now st hfind hsame hl] at h
          exact absurd h (by simp)
        | some t0 =>
          rw [update_same_dirty tr tid now st t0 hfind hsame hl] at h
          simp only [Except.ok.injEq, Prod.mk.injEq] at h
          obtain ⟨h1, -⟩ := h
          subst h1
          refine ⟨keyNew _, entNew _ ?_⟩
          exact ⟨by simpa using hstinv.1, by simpa using hstinv.2⟩
      · rw [update_same_not_dirty tr tid lbl now st hfind hsame hd] at h
        simp only [Except.ok.injEq, Prod.mk.injEq] at h
        obtain ⟨h1, -⟩ := h
        subst h1
        exact ⟨hkeys, hent⟩
    · by_cases hd : lbl = "unoccupied_dirty"
      · subst hd
        rw [update_enter_dirty tr tid now st hfind hsame] at h
        simp only [Except.ok.injEq, Prod.mk.injEq] at h
        obtain ⟨h1, -⟩ := h
        subst h1
        refine ⟨keyNew _, entNew _ ?_⟩
        refine ⟨by simp, ?_⟩
        intro t0 ht
        simp only [Option.some.injEq] at ht
        rw [← ht]
        exact h0
      · by_cases hold : st.state = "unoccupied_dirty"
        · rw [update_leave_dirty tr tid lbl now st hfind hold hd] at h
          simp only [Except.ok.injEq, Prod.mk.injEq] at h
          obtain ⟨h1, -⟩ := h
          subst h1
          refine ⟨keyNew _, entNew _ ?_⟩
          exact ⟨by simp [hd], by simp⟩
        · rw [update_switch_other tr tid lbl now st hfind hsame hold hd] at h
          simp only [Except.ok.injEq, Prod.mk.injEq] at h
          obtain ⟨h1, -⟩ := h
          subst h1
          refine ⟨keyNew _, entNew _ ?_⟩
          have hnone : st.last_dirty_time = none := by
            rcases hx : st.last_dirty_time with - | t0
            · rfl
            · exact absurd (hstinv.1.mpr (by simp [hx])) hold
          exact ⟨by simp [hd, hnone], by simp [hnone]⟩

theorem zoneInv_scanEntry (now : ℚ) (e : String × ZoneState) (h : ZoneInv e.2) :
    ZoneInv (scanEntry now e).2 := by
  obtain ⟨tid, s, lsc, ldt, dd⟩ := e
  cases ldt with
  | none => exact h
  | some t0 =>
    by_cases hq : s = "unoccupied_dirty" ∧ t0 ≠ 0
    · simp only [scanEntry]
      rw [if_pos hq]
      exact ⟨by simpa using h.1, by simpa using h.2⟩
    · simp only [scanEntry]
      rw [if_neg hq]
      exact h

theorem trackerInv_check (tr : TableStateTracker) (hi : TrackerInv tr) (now : ℚ)
    (tstr : String) : TrackerInv (check_alerts tr now tstr).1 := by
  obtain ⟨hkeys, hent⟩ := hi
  constructor
  · simp only [check_alerts, alertScan_eq, List.map_map]
    have hc : (Prod.fst ∘ scanEntry now) = (Prod.fst : String × ZoneState → String) := by
      funext e; exact scanEntry_fst now e
    rw [hc]; exact hkeys
  · intro e he
    simp only [check_alerts, alertScan_eq, List.mem_map] at he
    obtain ⟨a, ha, rfl⟩ := he
    exact zoneInv_scanEntry now a (hent _ ha)

theorem reachable_inv (tr : TableStateTracker) (h : Reachable tr) : TrackerInv tr := by
  induction h with
  | mk ids thr t0 h0 hn => exact trackerInv_mkTracker ids thr t0 hn
  | upd tr tid lbl now tr' b hr h0 hok ih => exact trackerInv_update tr ih tid lbl now h0 tr' b hok
  | alerts tr now tstr hr h0 ih => exact trackerInv_check tr ih now tstr

/-! ## More helper lemmas -/

theorem findState_mkTracker (table_ids : List String) (thr t0 : ℚ) (tid : String)
    (h : tid ∈ table_ids) :
    findState (mkTracker table_ids thr t0).table_states tid = some (initZoneState t0) := by
  simp only [mkTracker]
  induction table_ids with
  | nil => simp at h
  | cons a rest ih =>
    rcases List.mem_cons.mp h with rfl | hm
    · simp [findState]
    · by_cases ha : a = tid
      · subst ha; simp [findState]
      · simp only [List.map_cons, findState, ha, if_neg, not_false_iff]
        exact ih hm

theorem scanEntry_eq_scanDur (now : ℚ) (e : String × ZoneState) :
    scanEntry now e = (e.1, scanDur now e.2) := by
  obtain ⟨tid, s, lsc, ldt, dd⟩ := e
  cases ldt with
  | none => rfl
  | some t0 =>
    dsimp only [scanEntry, scanDur]
    by_cases hq : s = "unoccupied_dirty" ∧ t0 ≠ 0
    · rw [if_pos hq, if_pos hq]
    · rw [if_neg hq, if_neg hq]

theorem findState_map_scanEntry (now : ℚ) (l : List (String × ZoneState)) (tid : String) :
    findState (l.map (scanEntry now)) tid = (findState l tid).map (scanDur now) := by
  induction l with
  | nil => rfl
  | cons a rest ih =>
    obtain ⟨k, v⟩ := a
    rw [List.map_cons, scanEntry_eq_scanDur]
    by_cases hk : k = tid
    · simp [findState, hk]
    · simp [findState, hk, ih]

theorem findState_check_alerts (tr : TableStateTracker) (now : ℚ) (tstr : String)
    (tid : String) :
    findState (check_alerts tr now tstr).1.table_states tid =
      (findState tr.table_states tid).map (scanDur now) := by
  simp only [check_alerts, alertScan_eq]
  exact findState_map_scanEntry now tr.table_states tid

theorem scanDur_not_dirty (now : ℚ) (st : ZoneState)
    (h : st.state ≠ "unoccupied_dirty") : scanDur now st = st := by
  obtain ⟨s, lsc, ldt, dd⟩ := st
  cases ldt with
  | none => rfl
  | some t0 =>
    dsimp only [scanDur]
    rw [if_neg (fun hq => h hq.1)]

theorem scanDur_dirty (now : ℚ) (st : ZoneState) (t0 : ℚ)
    (hs : st.state = "unoccupied_dirty") (hl : st.last_dirty_time = some t0)
    (h0 : t0 ≠ 0) : scanDur now st = { st with dirty_duration := now - t0 } := by
  obtain ⟨s, lsc, ldt, dd⟩ := st
  dsimp only at hs hl
  subst hl
  dsimp only [scanDur]
  rw [if_pos ⟨hs, h0⟩]

/-! ## Counting a zone's alerts, and running call sequences -/

theorem scanAlert_table_id (thr now : ℚ) (tstr : String) (e : String × ZoneState)
    (a : Alert) (h : scanAlert thr now tstr e = some a) : a.table_id = e.1 := by
  obtain ⟨tid, s, lsc, ldt, dd⟩ := e
  cases ldt with
  | none => simp [scanAlert] at h
  | some t0 =>
    dsimp only [scanAlert] at h
    by_cases hq : (s = "unoccupied_dirty" ∧ t0 ≠ 0) ∧ thr ≤ now - t0
    · rw [if_pos hq] at h
      obtain rfl := Option.some.inj h
      rfl
    · rw [if_neg hq] at h
      exact absurd h (by simp)

theorem countFor_cons_ne (tid : String) (a : Alert) (as : List Alert)
    (h : a.table_id ≠ tid) : countFor tid (a :: as) = countFor tid as := by
  simp [countFor, List.filter_cons, h]

theorem countFor_cons_eq (tid : String) (a : Alert) (as : List Alert)
    (h : a.table_id = tid) : countFor tid (a :: as) = countFor tid as + 1 := by
  simp [countFor, List.filter_cons, h]

theorem countFor_filterMap_zero (thr now : ℚ) (tstr : String)
    (l : List (String × ZoneState)) (tid : String) (h : tid ∉ l.map Prod.fst) :
    countFor tid (l.filterMap (scanAlert thr now tstr)) = 0 := by
  induction l with
  | nil => rfl
  | cons e rest ih =>
    simp only [List.map_cons, List.mem_cons, not_or] at h
    obtain ⟨h1, h2⟩ := h
    rw [List.filterMap_cons]
    cases ha : scanAlert thr now tstr e with
    | none => exact ih h2
    | some a =>
      have hta := scanAlert_table_id thr now tstr e a ha
      rw [countFor_cons_ne tid a _ (by rw [hta]; exact fun hh => h1 hh.symm)]
      exact ih h2

theorem countFor_filterMap (thr now : ℚ) (tstr : String) (l : List (String × ZoneState))
    (hnd : (l.map Prod.fst).Nodup) (tid : String) (st : ZoneState)
    (hf : findState l tid = some st) :
    countFor tid (l.filterMap (scanAlert thr now tstr)) =
      if (scanAlert thr now tstr (tid, st)).isSome then 1 else 0 := by
  induction l with
  | nil => simp [findState] at hf
  | cons e rest ih =>
    obtain ⟨k, v⟩ := e
    simp only [List.map_cons, List.nodup_cons] at hnd
    obtain ⟨hk1, hk2⟩ := hnd
    rw [List.filterMap_cons]
    by_cases hk : k = tid
    · subst hk
      simp only [findState, if_pos] at hf
      obtain rfl := Option.some.inj hf
      have hzero := countFor_filterMap_zero thr now tstr rest k hk1
      cases ha : scanAlert thr now tstr (k, v) with
      | none => simp [ha, hzero]
      | some a =>
        have hta := scanAlert_table_id thr now tstr (k, v) a ha
        rw [countFor_cons_eq k a _ hta, hzero]
        rfl
    · simp only [findState, hk, if_neg, not_false_iff] at hf
      cases ha : scanAlert thr now tstr (k, v) with
      | none => exact ih hk2 hf
      | some a =>
        have hta := scanAlert_table_id thr now tstr (k, v) a ha
        rw [countFor_cons_ne tid a _ (by rw [hta]; exact hk)]
        exact ih hk2 hf

theorem scanAlert_dirty (thr now : ℚ) (tstr tid : String) (st : ZoneState) (t0 : ℚ)
    (hs : st.state = "unoccupied_dirty") (hl : st.last_dirty_time = some t0)
    (h0 : t0 ≠ 0) :
    scanAlert thr now tstr (tid, st) =
      if thr ≤ now - t0 then some (mkAlert tid (now - t0) tstr) else none := by
  obtain ⟨s, lsc, ldt, dd⟩ := st
  dsimp only at hs hl
  subst hl hs
  dsimp only [scanAlert]
  by_cases hthr : thr ≤ now - t0
  · rw [if_pos ⟨⟨rfl, h0⟩, hthr⟩, if_pos hthr]
  · rw [if_neg (fun hh => hthr hh.2), if_neg hthr]

theorem check_alerts_countFor (tr : TableStateTracker) (hinv : TrackerInv tr)
    (now : ℚ) (tstr tid : String) (st : ZoneState) (t0 : ℚ)
    (hf : findState tr.table_states tid = some st)
    (hs : st.state = "unoccupied_dirty") (hl : st.last_dirty_time = some t0)
    (h0 : t0 ≠ 0) :
    countFor tid (check_alerts tr now tstr).2 =
      if tr.dirty_threshold ≤ now - t0 then 1 else 0 := by
  simp only [check_alerts, alertScan_eq]
  rw [countFor_filterMap tr.dirty_threshold now tstr tr.table_states hinv.1 tid st hf]
  rw [scanAlert_dirty tr.dirty_threshold now tstr tid st t0 hs hl h0]
  by_cases hthr : tr.dirty_threshold ≤ now - t0
  · rw [if_pos hthr, if_pos hthr]
    rfl
  · rw [if_neg hthr, if_neg hthr]
    rfl

theorem runUpdates_dirty (tid : String) (t0 : ℚ) (ts : List ℚ) :
    ∀ (tr : TableStateTracker) (st : ZoneState),
      findState tr.table_states tid = some st →
      st.state = "unoccupied_dirty" → st.last_dirty_time = some t0 →
      ∃ trf, runUpdates tid "unoccupied_dirty" tr ts =
        some (ts.map (fun t => t - t0), trf) := by
  induction ts with
  | nil => intro tr st hf hs hl; exact ⟨tr, rfl⟩
  | cons t ts ih =>
    intro tr st hf hs hl
    have hupd := update_same_dirty tr tid t st t0 hf hs hl
    have hf2 : findState (setState tr.table_states tid ({ st with dirty_duration := t - t0 })) tid =
        some ({ st with dirty_duration := t - t0 }) := by
      rw [findState_setState_self, hf]
      rfl
    obtain ⟨trf, hrun⟩ := ih ({ tr with table_states := setState tr.table_states tid ({ st with dirty_duration := t - t0 }) }) ({ st with dirty_duration := t - t0 }) hf2 (by simpa using hs) (by simpa using hl)
    refine ⟨trf, ?_⟩
    simp only [runUpdates, hupd, hf2, hrun, List.map_cons]

theorem runAlertCalls_dirty_counts (tid : String) (t0 : ℚ) (calls : List (ℚ × String)) :
    ∀ (tr : TableStateTracker) (st : ZoneState), TrackerInv tr →
      findState tr.table_states tid = some st →
      st.state = "unoccupied_dirty" → st.last_dirty_time = some t0 → t0 ≠ 0 →
      (runAlertCalls tr calls).map (countFor tid) =
        calls.map (fun c => if tr.dirty_threshold ≤ c.1 - t0 then 1 else 0) := by
  induction calls with
  | nil => intro tr st _ _ _ _ _; rfl
  | cons c cs ih =>
    intro tr st hinv hf hs hl h0
    have hcount := check_alerts_countFor tr hinv c.1 c.2 tid st t0 hf hs hl h0
    have hf2 : findState (check_alerts tr c.1 c.2).1.table_states tid =
        some ({ st with dirty_duration := c.1 - t0 }) := by
      rw [findState_check_alerts, hf]
      rw [Option.map_some']
      rw [scanDur_dirty c.1 st t0 hs hl h0]
    have hinv2 := trackerInv_check tr hinv c.1 c.2
    have hrec := ih (check_alerts tr c.1 c.2).1 ({ st with dirty_duration := c.1 - t0 }) hinv2 hf2 (by simpa using hs) (by simpa using hl) h0
    have hthr2 : (check_alerts tr c.1 c.2).1.dirty_threshold = tr.dirty_threshold := rfl
    rw [hthr2] at hrec
    simp only [runAlertCalls, List.map_cons, hcount, hrec]


/-! ## Concrete reachability facts for the demo trackers -/

theorem reachable_demoTracker : Reachable demoTracker :=
  Reachable.mk ["T1"] 300 1 (by norm_num) (by decide)

theorem update_demoTracker_dirty :
    update_table_state demoTracker "T1" "unoccupied_dirty" 10 = .ok (demoDirtyTracker, true) := by
  simp [demoTracker, demoDirtyTracker, demoDirtyState, update_table_state, mkTracker,
    initZoneState, findState, setState]

theorem reachable_demoDirtyTracker : Reachable demoDirtyTracker :=
  Reachable.upd demoTracker "T1" "unoccupied_dirty" 10 demoDirtyTracker true
    reachable_demoTracker (by norm_num) update_demoTracker_dirty

theorem update_demoTracker_dirty12 :
    update_table_state demoTracker "T1" "unoccupied_dirty" 12 = .ok (demoDirtyTracker12, true) := by
  simp [demoTracker, demoDirtyTracker12, demoDirtyState12, update_table_state, mkTracker,
    initZoneState, findState, setState]

/-! ## Claim theorems -/

/-- C10: immediately after construction with any id list, every configured
table's state is exactly `unoccupied_clean` / `last_state_change = t0` (the
construction-time clock reading) / `last_dirty_time = none` /
`dirty_duration = 0`, and the documented invariants hold for it. -/
theorem c10_initial_state (table_ids : List String) (thr t0 : ℚ) (tid : String)
    (h : tid ∈ table_ids) :
    findState (mkTracker table_ids thr t0).table_states tid = some (initZoneState t0) ∧
    (initZoneState t0).state = "unoccupied_clean" ∧
    (initZoneState t0).last_state_change = t0 ∧
    (initZoneState t0).last_dirty_time = none ∧
    (initZoneState t0).dirty_duration = 0 ∧
    ZoneInv (initZoneState t0) := by
  refine ⟨findState_mkTracker table_ids thr t0 tid h, rfl, rfl, rfl, rfl, ?_⟩
  exact ⟨by simp [initZoneState], by simp [initZoneState]⟩

theorem c10_initial_state_witness :
    findState (mkTracker ["T1", "T2"] 300 5).table_states "T2" = some (initZoneState 5) :=
  (c10_initial_state ["T1", "T2"] 300 5 "T2" (by decide)).1

/-- C7: in every reachable tracker state, a configured table's
`last_dirty_time` is non-null iff its current state is
`unoccupied_dirty`.  (`get_table_state` and `get_all_states` do not
modify the tracker, so sequences containing them reach the same states.) -/
theorem c7_dirty_since_iff (tr : TableStateTracker) (hr : Reachable tr)
    (tid : String) (st : ZoneState) (hf : findState tr.table_states tid = some st) :
    st.last_dirty_time ≠ none ↔ st.state = "unoccupied_dirty" :=
  ((reachable_inv tr hr).2 _ (findState_mem _ _ _ hf)).1.symm

theorem c7_dirty_since_iff_witness :
    (demoDirtyState.last_dirty_time ≠ none ↔ demoDirtyState.state = "unoccupied_dirty") :=
  c7_dirty_since_iff demoDirtyTracker reachable_demoDirtyTracker "T1" demoDirtyState
    (by simp [demoDirtyTracker, findState])

/-- C6: an unconfigured table id makes both `update_table_state` and
`get_table_state` raise (`ValueError`, the source's `UnknownZoneError`),
and a configured id makes neither raise (in any reachable state). -/
theorem c6_unknown_zone (tr : TableStateTracker) (hr : Reachable tr)
    (tid lbl : String) (now : ℚ) :
    (findState tr.table_states tid = none →
      update_table_state tr tid lbl now = .error .valueErr ∧
      get_table_state tr tid = .error .valueErr) ∧
    (findState tr.table_states tid ≠ none →
      (∃ p, update_table_state tr tid lbl now = .ok p) ∧
      (∃ st, get_table_state tr tid = .ok st)) := by
  constructor
  · intro hn
    refine ⟨update_not_found tr tid lbl now hn, ?_⟩
    unfold get_table_state
    rw [hn]
  · intro hn
    cases hfind : findState tr.table_states tid with
    | none => exact absurd hfind hn
    | some st =>
      refine ⟨?_, ⟨st, by unfold get_table_state; rw [hfind]⟩⟩
      have hzinv := (reachable_inv tr hr).2 _ (findState_mem _ _ _ hfind)
      by_cases hsame : st.state = lbl
      · by_cases hd : lbl = "unoccupied_dirty"
        · subst hd
          cases hl : st.last_dirty_time with
          | none => exact absurd hl (hzinv.1.mp hsame)
          | some t0 => exact ⟨_, update_same_dirty tr tid now st t0 hfind hsame hl⟩
        · exact ⟨_, update_same_not_dirty tr tid lbl now st hfind hsame hd⟩
      · by_cases hd : lbl = "unoccupied_dirty"
        · subst hd
          exact ⟨_, update_enter_dirty tr tid now st hfind hsame⟩
        · by_cases hold : st.state = "unoccupied_dirty"
          · exact ⟨_, update_leave_dirty tr tid lbl now st hfind hold hd⟩
          · exact ⟨_, update_switch_other tr tid lbl now st hfind hsame hold hd⟩

theorem c6_unknown_zone_witness :
    update_table_state demoTracker "T9" "occupied" 5 = .error .valueErr ∧
    get_table_state demoTracker "T9" = .error .valueErr :=
  (c6_unknown_zone demoTracker reachable_demoTracker "T9" "occupied" 5).1
    (by simp [demoTracker, mkTracker, initZoneState, findState])

/-- C4 (amended): the full effect of `update_table_state` on a configured
table, branch by branch.  Same label: no transition, `dirty_duration`
recomputed as `now - last_dirty_time` exactly when the unchanged label is
`unoccupied_dirty`, returns `false`.  Different label: `state` and
`last_state_change` are set; entering `unoccupied_dirty` additionally sets
`last_dirty_time = now` and `dirty_duration = 0`; leaving it resets
`last_dirty_time = none` and `dirty_duration = 0`; returns `true`.  The
zone state has no `alerted` field, so no such flag is set (see the
counterexample). -/
theorem c4_update_transitions (tr : TableStateTracker) (hr : Reachable tr)
    (tid lbl : String) (now : ℚ) (st : ZoneState)
    (hf : findState tr.table_states tid = some st) :
    (st.state = lbl → lbl ≠ "unoccupied_dirty" →
       update_table_state tr tid lbl now = .ok (tr, false)) ∧
    (st.state = lbl → lbl = "unoccupied_dirty" →
       ∃ t0, st.last_dirty_time = some t0 ∧
         update_table_state tr tid lbl now = .ok ({ tr with table_states := setState tr.table_states tid ({ st with dirty_duration := now - t0 }) }, false)) ∧
    (st.state ≠ lbl → lbl = "unoccupied_dirty" →
       update_table_state tr tid lbl now = .ok ({ tr with table_states := setState tr.table_states tid ({ st with state := lbl, last_state_change := now, last_dirty_time := some now, dirty_duration := 0 }) }, true)) ∧
    (st.state ≠ lbl → lbl ≠ "unoccupied_dirty" → st.state = "unoccupied_dirty" →
       update_table_state tr tid lbl now = .ok ({ tr with table_states := setState tr.table_states tid ({ st with state := lbl, last_state_change := now, last_dirty_time := none, dirty_duration := 0 }) }, true)) ∧
    (st.state ≠ lbl → lbl ≠ "unoccupied_dirty" → st.state ≠ "unoccupied_dirty" →
       update_table_state tr tid lbl now = .ok ({ tr with table_states := setState tr.table_states tid ({ st with state := lbl, last_state_change := now }) }, true)) := by
  refine ⟨?_, ?_, ?_, ?_, ?_⟩
  · intro hsame hd
    exact update_same_not_dirty tr tid lbl now st hf hsame hd
  · intro hsame hd
    subst hd
    have hzinv := (reachable_inv tr hr).2 _ (findState_mem _ _ _ hf)
    cases hx : st.last_dirty_time with
    | none => exact absurd hx (hzinv.1.mp hsame)
    | some t0 =>
      have hu := update_same_dirty tr tid now st t0 hf hsame hx
      rw [hx] at hu
      exact ⟨t0, rfl, hu⟩
  · intro hne hd
    subst hd
    exact update_enter_dirty tr tid now st hf hne
  · intro hne hd hold
    exact update_leave_dirty tr tid lbl now st hf hold hd
  · intro hne hd hold
    exact update_switch_other tr tid lbl now st hf hne hold hd

theorem c4_update_transitions_witness :
    update_table_state demoTracker "T1" "unoccupied_clean" 5 = .ok (demoTracker, false) :=
  (c4_update_transitions demoTracker reachable_demoTracker "T1" "unoccupied_clean" 5
    (initZoneState 1) (by simp [demoTracker, mkTracker, findState])).1 rfl (by decide)

/-- C4 counterexample: the claim's clause "additionally sets `alerted` =
false" refers to a field the code does not have.  The complete per-table
state written by `update_table_state` on entering `unoccupied_dirty` is
the four-key record shown (no alert-suppression flag), and consequently
two successive qualifying `check_alerts` calls both emit an alert for the
zone — which the `alerted` flag, had it existed, would have prevented. -/
theorem c4_update_transitions_counterexample :
    update_table_state demoTracker "T1" "unoccupied_dirty" 12 = .ok (demoDirtyTracker12, true) ∧
    (check_alerts demoDirtyTracker12 320 "A").2.length = 1 ∧
    (check_alerts (check_alerts demoDirtyTracker12 320 "A").1 321 "B").2.length = 1 := by
  refine ⟨update_demoTracker_dirty12, ?_, ?_⟩
  · simp [check_alerts, alertScan, mkAlert, pyInt, demoDirtyTracker12, demoDirtyState12]
    norm_num
  · simp [check_alerts, alertScan, mkAlert, pyInt, demoDirtyTracker12, demoDirtyState12]
    norm_num

/-- C5: while a table stays continuously `unoccupied_dirty`, a sequence of
`update_table_state` calls with the same dirty label at non-decreasing
times succeeds and produces a non-decreasing sequence of stored
`dirty_duration` values. -/
theorem c5_duration_monotone (tr : TableStateTracker) (tid : String) (st : ZoneState)
    (t0 : ℚ) (ts : List ℚ) (hf : findState tr.table_states tid = some st)
    (hs : st.state = "unoccupied_dirty") (hl : st.last_dirty_time = some t0)
    (hts : ts.Chain' (· ≤ ·)) :
    ∃ ds trf, runUpdates tid "unoccupied_dirty" tr ts = some (ds, trf) ∧
      ds.Chain' (· ≤ ·) := by
  obtain ⟨trf, hrun⟩ := runUpdates_dirty tid t0 ts tr st hf hs hl
  refine ⟨_, trf, hrun, ?_⟩
  rw [List.chain'_map]
  exact hts.imp (fun a b hab => sub_le_sub_right hab t0)

theorem c5_duration_monotone_witness :
    ∃ ds trf, runUpdates "T1" "unoccupied_dirty" demoDirtyTracker [20, 30] = some (ds, trf) ∧
      ds.Chain' (· ≤ ·) :=
  c5_duration_monotone demoDirtyTracker "T1" demoDirtyState 10 [20, 30]
    (by simp [demoDirtyTracker, findState]) rfl rfl
    (by norm_num [List.chain'_cons, List.chain'_singleton])

/-- C9: every `check_alerts` call stores `dirty_duration = now -
last_dirty_time` for every table that is `unoccupied_dirty` with non-null
`last_dirty_time` (in reachable states the stored entry time is a positive
clock reading, so the guard's truthiness test passes), including tables
still below the alert threshold, and leaves every non-dirty table's state
entirely unchanged. -/
theorem c9_check_alerts_frame (tr : TableStateTracker) (hr : Reachable tr) (now : ℚ)
    (tstr tid : String) (st : ZoneState) (hf : findState tr.table_states tid = some st) :
    (∀ t0 : ℚ, st.last_dirty_time = some t0 →
       findState (check_alerts tr now tstr).1.table_states tid =
         some ({ st with dirty_duration := now - t0 })) ∧
    (st.state ≠ "unoccupied_dirty" →
       findState (check_alerts tr now tstr).1.table_states tid = some st) := by
  have hzinv := (reachable_inv tr hr).2 _ (findState_mem _ _ _ hf)
  constructor
  · intro t0 hl
    have hs : st.state = "unoccupied_dirty" := hzinv.1.mpr (by simp [hl])
    have h0 : t0 ≠ 0 := (hzinv.2 t0 hl).ne'
    rw [findState_check_alerts, hf, Option.map_some', scanDur_dirty now st t0 hs hl h0]
  · intro hs
    rw [findState_check_alerts, hf, Option.map_some', scanDur_not_dirty now st hs]

theorem c9_check_alerts_frame_witness :
    findState (check_alerts demoTracker 5 "A").1.table_states "T1" = some (initZoneState 1) :=
  (c9_check_alerts_frame demoTracker reachable_demoTracker 5 "A" "T1" (initZoneState 1)
    (by simp [demoTracker, mkTracker, findState])).2 (by simp [initZoneState])

/-- C1 (amended): the tracker keeps no `alerted` flag, so during one
continuous dirty episode `check_alerts` emits one alert for the zone at
EVERY call whose clock reading has reached the threshold — the first
qualifying call and every later one alike — and none at calls below it. -/
theorem c1_alert_every_qualifying_call (tr : TableStateTracker) (hr : Reachable tr)
    (tid : String) (st : ZoneState) (t0 : ℚ)
    (hf : findState tr.table_states tid = some st)
    (hs : st.state = "unoccupied_dirty") (hl : st.last_dirty_time = some t0)
    (calls : List (ℚ × String)) :
    (runAlertCalls tr calls).map (countFor tid) =
      calls.map (fun c => if tr.dirty_threshold ≤ c.1 - t0 then 1 else 0) := by
  have hinv := reachable_inv tr hr
  have h0 : t0 ≠ 0 := ((hinv.2 _ (findState_mem _ _ _ hf)).2 t0 hl).ne'
  exact runAlertCalls_dirty_counts tid t0 calls tr st hinv hf hs hl h0

theorem c1_alert_every_qualifying_call_witness :
    (runAlertCalls demoDirtyTracker [(310, "A"), (360, "B")]).map (countFor "T1") = [1, 1] := by
  rw [c1_alert_every_qualifying_call demoDirtyTracker reachable_demoDirtyTracker "T1"
    demoDirtyState 10 (by simp [demoDirtyTracker, findState]) rfl rfl [(310, "A"), (360, "B")]]
  norm_num [demoDirtyTracker]

/-- C1 counterexample: a table becomes dirty at t = 10 (threshold 300);
`check_alerts` at t = 310 emits one alert, and the next `check_alerts` at
t = 360, with no intervening state change, emits one alert AGAIN — the
claim says every call after the first qualifying one emits none. -/
theorem c1_alert_every_qualifying_call_counterexample :
    update_table_state demoTracker "T1" "unoccupied_dirty" 10 = .ok (demoDirtyTracker, true) ∧
    (check_alerts demoDirtyTracker 310 "A").2.length = 1 ∧
    (check_alerts (check_alerts demoDirtyTracker 310 "A").1 360 "B").2.length = 1 := by
  refine ⟨update_demoTracker_dirty, ?_, ?_⟩
  · simp [check_alerts, alertScan, mkAlert, pyInt, demoDirtyTracker, demoDirtyState]
    norm_num
  · simp [check_alerts, alertScan, mkAlert, pyInt, demoDirtyTracker, demoDirtyState]
    norm_num

/-! ## Assigner lemmas -/

theorem iouStep_eq_iouQ (cn : ℕ → String) (tb : Box) (acc : String × ℚ)
    (det : Box × ℕ) (hb : 0 ≤ acc.2) :
    iouStep cn tb acc det =
      if acc.2 < iouQ tb det.1 then (cn det.2, iouQ tb det.1) else acc := by
  simp only [iouStep, iouQ]
  by_cases hov : overlapsOk tb det.1
  · rw [if_pos hov, if_pos hov]
  · rw [if_neg hov, if_neg hov, if_neg (not_lt.mpr hb)]

theorem foldl_iouStep_characterization (cn : ℕ → String) (tb : Box)
    (dets : List (Box × ℕ)) :
    ∀ (s : String) (b : ℚ), 0 ≤ b →
      ((∀ d ∈ dets, iouQ tb d.1 ≤ b) ∧ dets.foldl (iouStep cn tb) (s, b) = (s, b)) ∨
      (∃ pre d post, dets = pre ++ d :: post ∧ b < iouQ tb d.1 ∧
        (∀ p ∈ pre, iouQ tb p.1 < iouQ tb d.1) ∧
        (∀ q ∈ post, iouQ tb q.1 ≤ iouQ tb d.1) ∧
        dets.foldl (iouStep cn tb) (s, b) = (cn d.2, iouQ tb d.1)) := by
  induction dets with
  | nil =>
    intro s b hb
    left
    exact ⟨by simp, rfl⟩
  | cons d rest ih =>
    intro s b hb
    rw [List.foldl_cons, iouStep_eq_iouQ cn tb (s, b) d hb]
    by_cases hlt : b < iouQ tb d.1
    · rw [if_pos hlt]
      have hb2 : 0 ≤ iouQ tb d.1 := le_of_lt (lt_of_le_of_lt hb hlt)
      rcases ih (cn d.2) (iouQ tb d.1) hb2 with ⟨hall, heq⟩ |
        ⟨pre, d2, post, hsplit, hlt2, hpre, hpost, heq⟩
      · right
        exact ⟨[], d, rest, rfl, hlt, by simp, hall, heq⟩
      · right
        refine ⟨d :: pre, d2, post, by rw [hsplit, List.cons_append], lt_trans hlt hlt2, ?_, hpost, heq⟩
        intro p hp
        rcases List.mem_cons.mp hp with rfl | hp2
        · exact hlt2
        · exact hpre p hp2
    · rw [if_neg hlt]
      push_neg at hlt
      rcases ih s b hb with ⟨hall, heq⟩ |
        ⟨pre, d2, post, hsplit, hlt2, hpre, hpost, heq⟩
      · left
        refine ⟨?_, heq⟩
        intro q hq
        rcases List.mem_cons.mp hq with rfl | hq2
        · exact hlt
        · exact hall q hq2
      · right
        refine ⟨d :: pre, d2, post, by rw [hsplit, List.cons_append], hlt2, ?_, hpost, heq⟩
        intro p hp
        rcases List.mem_cons.mp hp with rfl | hp2
        · exact lt_of_le_of_lt hlt hlt2
        · exact hpre p hp2

theorem overlapsOk_nonneg (tb db : Box) (h : overlapsOk tb db) :
    0 ≤ interW tb db ∧ 0 ≤ interH tb db := by
  unfold overlapsOk at h
  push_neg at h
  exact ⟨sub_nonneg.mpr h.1, sub_nonneg.mpr h.2⟩

theorem overlapsOk_det_nonneg (tb db : Box) (h : overlapsOk tb db) :
    0 ≤ db.x2 - db.x1 ∧ 0 ≤ db.y2 - db.y1 := by
  unfold overlapsOk at h
  push_neg at h
  constructor
  · have h1 : db.x1 ≤ min tb.x2 db.x2 := le_trans (le_max_right _ _) h.1
    have h2 : min tb.x2 db.x2 ≤ db.x2 := min_le_right _ _
    linarith
  · have h1 : db.y1 ≤ min tb.y2 db.y2 := le_trans (le_max_right _ _) h.2
    have h2 : min tb.y2 db.y2 ≤ db.y2 := min_le_right _ _
    linarith

theorem interArea_le_boxArea (tb db : Box) (h : overlapsOk tb db) :
    interArea tb db ≤ boxArea db := by
  obtain ⟨hw, hh⟩ := overlapsOk_nonneg tb db h
  obtain ⟨hdw, hdh⟩ := overlapsOk_det_nonneg tb db h
  have h1 : interW tb db ≤ db.x2 - db.x1 :=
    sub_le_sub (min_le_right _ _) (le_max_right _ _)
  have h2 : interH tb db ≤ db.y2 - db.y1 :=
    sub_le_sub (min_le_right _ _) (le_max_right _ _)
  exact mul_le_mul h1 h2 hh hdw

theorem unionArea_pos (tb db : Box) (hA : 0 < boxArea tb) (h : overlapsOk tb db) :
    0 < unionArea tb db := by
  have h1 := interArea_le_boxArea tb db h
  unfold unionArea
  linarith

theorem interArea_degenerate (tb db : Box) (h : overlapsOk tb db)
    (hd : boxArea db ≤ 0) : interArea tb db = 0 := by
  obtain ⟨hw, hh⟩ := overlapsOk_nonneg tb db h
  obtain ⟨hdw, hdh⟩ := overlapsOk_det_nonneg tb db h
  have h1 : interW tb db ≤ db.x2 - db.x1 :=
    sub_le_sub (min_le_right _ _) (le_max_right _ _)
  have h2 : interH tb db ≤ db.y2 - db.y1 :=
    sub_le_sub (min_le_right _ _) (le_max_right _ _)
  have hz : (db.x2 - db.x1) * (db.y2 - db.y1) = 0 :=
    le_antisymm hd (mul_nonneg hdw hdh)
  unfold interArea
  rcases mul_eq_zero.mp hz with h0 | h0
  · have : interW tb db = 0 := le_antisymm (h0 ▸ h1) hw
    rw [this, zero_mul]
  · have : interH tb db = 0 := le_antisymm (h0 ▸ h2) hh
    rw [this, mul_zero]

theorem iouStep_degenerate (cn : ℕ → String) (tb : Box) (acc : String × ℚ)
    (db : Box) (c : ℕ) (hd : boxArea db ≤ 0) (hacc : 0 ≤ acc.2) :
    iouStep cn tb acc (db, c) = acc := by
  simp only [iouStep]
  by_cases hov : overlapsOk tb db
  · rw [if_pos hov]
    have hz : interArea tb db = 0 := interArea_degenerate tb db hov hd
    rw [hz]
    rw [if_neg (by simpa using not_lt.mpr hacc)]
  · rw [if_neg hov]

theorem iouStep_acc_le (cn : ℕ → String) (tb : Box) (acc : String × ℚ)
    (det : Box × ℕ) : acc.2 ≤ (iouStep cn tb acc det).2 := by
  simp only [iouStep]
  by_cases hov : overlapsOk tb det.1
  · rw [if_pos hov]
    by_cases hlt : acc.2 < (interArea tb det.1 : ℚ) / (unionArea tb det.1 : ℚ)
    · rw [if_pos hlt]
      exact le_of_lt hlt
    · rw [if_neg hlt]
  · rw [if_neg hov]

theorem foldl_iouStep_acc_le (cn : ℕ → String) (tb : Box) (dets : List (Box × ℕ)) :
    ∀ acc : String × ℚ, acc.2 ≤ (dets.foldl (iouStep cn tb) acc).2 := by
  induction dets with
  | nil => intro acc; exact le_refl _
  | cons d rest ih =>
    intro acc
    rw [List.foldl_cons]
    exact le_trans (iouStep_acc_le cn tb acc d) (ih (iouStep cn tb acc d))

/-! ## Assigner claim theorems -/

/-- C3: for every table rectangle and detection list, the assigned label is
the class (through `self.class_names`) of the detection whose IoU with the
table rectangle is strictly largest among those exceeding the fixed 0.3
threshold, the first-seen detection winning ties (every earlier detection
has strictly smaller IoU, every later one has IoU at most the winner's);
if no detection's IoU exceeds 0.3 — in particular on the empty list — the
label is the default `unoccupied_clean` (the spec's `clean_unoccupied`). -/
theorem c3_best_iou_selection (cn : ℕ → String) (tb : Box) (dets : List (Box × ℕ)) :
    ((∀ d ∈ dets, iouQ tb d.1 ≤ 3/10) ∧
      (bestStateForTable cn tb dets).1 = "unoccupied_clean") ∨
    (∃ pre d post, dets = pre ++ d :: post ∧ 3/10 < iouQ tb d.1 ∧
      (∀ p ∈ pre, iouQ tb p.1 < iouQ tb d.1) ∧
      (∀ q ∈ post, iouQ tb q.1 ≤ iouQ tb d.1) ∧
      (bestStateForTable cn tb dets).1 = cn d.2) := by
  unfold bestStateForTable
  rcases foldl_iouStep_characterization cn tb dets "unoccupied_clean" (3/10) (by norm_num)
    with ⟨hall, heq⟩ | ⟨pre, d, post, hsplit, hlt, hpre, hpost, heq⟩
  · left
    exact ⟨hall, by rw [heq]⟩
  · right
    exact ⟨pre, d, post, hsplit, hlt, hpre, hpost, by rw [heq]⟩

/-- C8: under the precondition that the configured table rectangle has
positive area, the IoU division's denominator is strictly positive
whenever the loop reaches the division (the overlap check passed), so the
loop is total and never divides by zero; and a detection with zero or
negative area is never selected — deleting it from the detection list
(anywhere in it) leaves the table's assignment unchanged. -/
theorem c8_degenerate_safe (cn : ℕ → String) (tb : Box) (hA : 0 < boxArea tb) :
    (∀ db : Box, overlapsOk tb db → 0 < unionArea tb db) ∧
    (∀ (pre post : List (Box × ℕ)) (db : Box) (c : ℕ), boxArea db ≤ 0 →
      bestStateForTable cn tb (pre ++ (db, c) :: post) =
        bestStateForTable cn tb (pre ++ post)) := by
  constructor
  · exact fun db hov => unionArea_pos tb db hA hov
  · intro pre post db c hd
    unfold bestStateForTable
    rw [List.foldl_append, List.foldl_append, List.foldl_cons]
    have hacc : (0 : ℚ) ≤ (pre.foldl (iouStep cn tb) ("unoccupied_clean", 3/10)).2 :=
      le_trans (by norm_num) (foldl_iouStep_acc_le cn tb pre ("unoccupied_clean", 3/10))
    rw [iouStep_degenerate cn tb _ db c hd hacc]

theorem c8_degenerate_safe_witness :
    (∀ db : Box, overlapsOk (Box.mk 0 0 10 10) db → 0 < unionArea (Box.mk 0 0 10 10) db) ∧
    (∀ (pre post : List (Box × ℕ)) (db : Box) (c : ℕ), boxArea db ≤ 0 →
      bestStateForTable demoClassNames (Box.mk 0 0 10 10) (pre ++ (db, c) :: post) =
        bestStateForTable demoClassNames (Box.mk 0 0 10 10) (pre ++ post)) :=
  c8_degenerate_safe demoClassNames (Box.mk 0 0 10 10) (by decide)

/-- C2 (refuting the claimed mechanism): `_map_detection_to_table` matches
detections against the UNSCALED table rectangles — `process_frame` computes
`scale_x = width / reference_width` and `scale_y` but applies them only
when drawing (lines 145–152), never before matching — so assignment is not
scale invariant.  With reference 100×100, table `T1 = [0,0,100,100]` and a
dirty-class detection covering the whole frame: at the reference resolution
(k = 1, detection `[0,0,100,100]`) the IoU is 1 and `T1` is labelled
`unoccupied_dirty`; doubling the frame and the detection (k = 2, detection
`[0,0,200,200]`) gives IoU 10000/40000 = 1/4 < 0.3 and `T1` falls back to
`unoccupied_clean` — a different mapping, where the claim requires an
identical one. -/
theorem c2_no_scale_invariance :
    mapDetectionToTable demoClassNames [("T1", Box.mk 0 0 100 100)]
        [(Box.mk 0 0 100 100, 2)] = [("T1", "unoccupied_dirty")] ∧
    mapDetectionToTable demoClassNames [("T1", Box.mk 0 0 100 100)]
        [(Box.mk 0 0 200 200, 2)] = [("T1", "unoccupied_clean")] := by
  constructor
  · norm_num [mapDetectionToTable, bestStateForTable, iouStep, overlapsOk, interArea,
      interW, interH, unionArea, boxArea, demoClassNames]
  · norm_num [mapDetectionToTable, bestStateForTable, iouStep, overlapsOk, interArea,
      interW, interH, unionArea, boxArea, demoClassNames]
